import Mathlib

/-!
Shallow embedding of `src/models.rs` (thin-film reflectivity pipeline).

The Rust source is a straight-line pipeline over `ndarray` 1-D arrays of
`f64`, modelled here as `List ℝ`:
  * `wavelengths`  — `Array::range(200.0, 800.5, 0.5)`;
  * `n_thin_film`  — Cauchy dispersion `a + b / (w*w)` mapped over the grid;
  * `transfer_matrix_reflectivity` — per-thickness reflectivity over the grid;
  * `reflectivity_spectra` — one row per thickness in `Array::range(0,6001,1)`;
  * the plotting loop pairing every 1000th thickness with a matrix row.

`ndarray`'s `Array::range(start, stop, step)` produces
`start, start+step, ...` with `⌈(stop-start)/step⌉` elements. Elementwise
binary operations on arrays of mismatched length panic; this implicit
failure is modelled by the `Option`-valued `transfer_matrix_reflectivity_checked`.
-/

namespace Film

open Real

/-- Model of `ndarray`'s `Array::range(start, stop, step)`: elements
`start + step*i` for `i < ⌈(stop - start)/step⌉`. -/
noncomputable def rangeGrid (start stop step : ℝ) : List ℝ :=
  (List.range (⌈(stop - start) / step⌉).toNat).map fun i : ℕ => start + step * (i : ℝ)

/-- Source: `let wavelengths = Array::range(200.0, 800.5, 0.5);` -/
noncomputable def wavelengths : List ℝ := rangeGrid 200.0 800.5 0.5

/-- Cauchy coefficient `let a = 1.458;` -/
noncomputable def a : ℝ := 1.458

/-- Cauchy coefficient `let b = 0.00354;` -/
noncomputable def b : ℝ := 0.00354

/-- The dispersion law applied pointwise in
`wavelengths.mapv(|w| a + b / (w * w))`. -/
noncomputable def cauchy (a b w : ℝ) : ℝ := a + b / (w * w)

/-- Source: `let n_thin_film = wavelengths.mapv(|w| a + b / (w * w));` -/
noncomputable def n_thin_film : List ℝ := wavelengths.map (cauchy a b)

/-- Source: `let n_si = 3.5;` -/
noncomputable def n_si : ℝ := 3.5

/-- Source: `let n_air = 1.0;` -/
noncomputable def n_air : ℝ := 1.0

/-- Body of `fn transfer_matrix_reflectivity`, elementwise over the
wavelength grid. Each intermediate array of the source is one list here:
`delta`, `r01`, `r12`, the attenuation `mapv(|d| (-2.0*d*1.0).exp())`,
and the final `r.mapv(|r| r.abs().powi(2))`. `Array::ones(wavelengths.len())`
is `List.replicate ws.length 1`. -/
noncomputable def transfer_matrix_reflectivity
    (n_air : ℝ) (n_thin_film : List ℝ) (n_silicon : ℝ) (thickness : ℝ)
    (wavelengths : List ℝ) : List ℝ :=
  let thickness_nm := thickness * 1e-1
  let delta := List.zipWith (fun w n => 2.0 * Real.pi / w * n * thickness_nm)
    wavelengths n_thin_film
  let r01 := n_thin_film.map fun n => (n_air - n) / (n_air + n)
  let r12 := n_thin_film.map fun n => (n - n_silicon) / (n + n_silicon)
  let att := delta.map fun d => Real.exp (-2.0 * d * 1.0)
  let num := List.zipWith (fun x ya => x + ya) r01 (List.zipWith (· * ·) r12 att)
  let den := List.zipWith (fun o p => o + p) (List.replicate wavelengths.length 1.0)
    (List.zipWith (· * ·) (List.zipWith (· * ·) r01 r12) att)
  let r := List.zipWith (· / ·) num den
  r.map fun x => |x| ^ 2

/-- Model of the implicit failure behaviour of the solver call: `ndarray`
elementwise operations panic when the index profile and the wavelength grid
have different lengths (the first such operation is the one computing
`delta`, before any reflectivity value exists); otherwise the computation
runs to completion. The source contains no other validation. -/
noncomputable def transfer_matrix_reflectivity_checked
    (n_air : ℝ) (n_thin_film : List ℝ) (n_silicon : ℝ) (thickness : ℝ)
    (wavelengths : List ℝ) : Option (List ℝ) :=
  if n_thin_film.length = wavelengths.length then
    some (transfer_matrix_reflectivity n_air n_thin_film n_silicon thickness wavelengths)
  else none

/-- Source: `let thicknesses = Array::range(0.0, 6001.0, 1.0);` -/
noncomputable def thicknesses : List ℝ := rangeGrid 0.0 6001.0 1.0

/-- The sweep loop: row `i` of `reflectivity_spectra` is assigned
`transfer_matrix_reflectivity(n_air, &n_thin_film, n_si, thicknesses[i], &wavelengths)`. -/
noncomputable def reflectivity_spectra : List (List ℝ) :=
  thicknesses.map fun thickness =>
    transfer_matrix_reflectivity n_air n_thin_film n_si thickness wavelengths

/-- Rust's `Iterator::step_by(n)`: keep the head, then skip `n - 1`
elements between kept ones. -/
def stepBy (n : ℕ) : List α → List α
  | [] => []
  | x :: xs => x :: stepBy n (xs.drop (n - 1))
termination_by l => l.length
decreasing_by
  simp only [List.length_drop, List.length_cons]
  omega

/-- The plotting loop
`for (i, &thickness) in thicknesses.iter().step_by(1000).enumerate()`:
each drawn series is the pair (thickness label, matrix row used), where the
row used is `reflectivity_spectra.row(i)` with `i` the ENUMERATION index. -/
noncomputable def plotted_series : List (ℝ × List ℝ) :=
  (stepBy 1000 thicknesses).enum.map fun p =>
    (p.2, reflectivity_spectra.getD p.1 [])

/-! ### Pointwise form of the solver -/

/-- The value of `transfer_matrix_reflectivity` at one wavelength `w`
with film index `n`: the scalar computation the elementwise array code
performs at each index. -/
noncomputable def tmr_point (n_air n n_silicon thickness w : ℝ) : ℝ :=
  let thickness_nm := thickness * 1e-1
  let delta := 2.0 * Real.pi / w * n * thickness_nm
  let r01 := (n_air - n) / (n_air + n)
  let r12 := (n - n_silicon) / (n + n_silicon)
  let att := Real.exp (-2.0 * delta * 1.0)
  let r := (r01 + r12 * att) / (1.0 + r01 * r12 * att)
  |r| ^ 2

/-- The composite amplitude `r = (r01 + r12·A) / (1 + r01·r12·A)` as a
function of the two Fresnel coefficients and the attenuation factor. -/
noncomputable def rAmp (x y e : ℝ) : ℝ := (x + y * e) / (1 + x * y * e)

theorem transfer_matrix_reflectivity_length
    (n0 : ℝ) (nf : List ℝ) (n2 t : ℝ) (ws : List ℝ)
    (h : nf.length = ws.length) :
    (transfer_matrix_reflectivity n0 nf n2 t ws).length = ws.length := by
  simp [transfer_matrix_reflectivity, h]

theorem transfer_matrix_reflectivity_getElem
    (n0 : ℝ) (nf : List ℝ) (n2 t : ℝ) (ws : List ℝ)
    (h : nf.length = ws.length) (i : ℕ) (hi : i < ws.length) :
    (transfer_matrix_reflectivity n0 nf n2 t ws).getD i 0 =
      tmr_point n0 (nf.getD i 0) n2 t (ws.getD i 0) := by
  have hnf : i < nf.length := by omega
  have hlen := transfer_matrix_reflectivity_length n0 nf n2 t ws h
  rw [List.getD_eq_getElem _ _ (by omega), List.getD_eq_getElem _ _ hnf,
    List.getD_eq_getElem _ _ hi]
  simp only [transfer_matrix_reflectivity, List.getElem_map, List.getElem_zipWith,
    List.getElem_replicate]
  simp [tmr_point]

/-! ### Grid lemmas -/

theorem rangeGrid_length (start stop step : ℝ) :
    (rangeGrid start stop step).length = (⌈(stop - start) / step⌉).toNat := by
  rw [rangeGrid, List.length_map, List.length_range]

theorem rangeGrid_getD (start stop step : ℝ) (i : ℕ)
    (hi : i < (⌈(stop - start) / step⌉).toNat) :
    (rangeGrid start stop step).getD i 0 = start + step * i := by
  rw [List.getD_eq_getElem _ _ (by rw [rangeGrid_length]; exact hi)]
  simp only [rangeGrid, List.getElem_map, List.getElem_range]

theorem wavelengths_length : wavelengths.length = 1201 := by
  have h : ((800.5 : ℝ) - 200.0) / 0.5 = ((1201 : ℤ) : ℝ) := by norm_num
  rw [wavelengths, rangeGrid_length, h, Int.ceil_intCast]
  rfl

theorem wavelengths_getD (i : ℕ) (hi : i < 1201) :
    wavelengths.getD i 0 = 200.0 + 0.5 * i := by
  have h : ((800.5 : ℝ) - 200.0) / 0.5 = ((1201 : ℤ) : ℝ) := by norm_num
  exact rangeGrid_getD _ _ _ i (by rw [h, Int.ceil_intCast]; exact hi)

theorem thicknesses_length : thicknesses.length = 6001 := by
  have h : ((6001.0 : ℝ) - 0.0) / 1.0 = ((6001 : ℤ) : ℝ) := by norm_num
  rw [thicknesses, rangeGrid_length, h, Int.ceil_intCast]
  rfl

theorem thicknesses_getD (i : ℕ) (hi : i < 6001) :
    thicknesses.getD i 0 = (i : ℝ) := by
  have h : ((6001.0 : ℝ) - 0.0) / 1.0 = ((6001 : ℤ) : ℝ) := by norm_num
  have := rangeGrid_getD 0.0 6001.0 1.0 i (by rw [h, Int.ceil_intCast]; exact hi)
  rw [thicknesses, this]
  norm_num

theorem wavelengths_getD_bounds (i : ℕ) (hi : i < 1201) :
    200 ≤ wavelengths.getD i 0 ∧ wavelengths.getD i 0 ≤ 800 := by
  rw [wavelengths_getD i hi]
  have h1 : (0 : ℝ) ≤ (i : ℝ) := Nat.cast_nonneg i
  have h2 : (i : ℝ) ≤ 1200 := by exact_mod_cast Nat.le_of_lt_succ hi
  constructor <;> nlinarith

theorem n_thin_film_length : n_thin_film.length = 1201 := by
  simp [n_thin_film, wavelengths_length]

theorem n_thin_film_getD (i : ℕ) (hi : i < 1201) :
    n_thin_film.getD i 0 = cauchy a b (wavelengths.getD i 0) := by
  have hw : i < wavelengths.length := by rw [wavelengths_length]; exact hi
  rw [List.getD_eq_getElem _ _ (by simpa [n_thin_film_length] using hi),
    List.getD_eq_getElem _ _ hw]
  simp [n_thin_film]

/-- The Cauchy index with the source's coefficients lies strictly between
1 and 3.5 (in fact within `(1.458, 1.4581)`) for wavelengths above 200 nm. -/
theorem cauchy_bounds (w : ℝ) (hlo : 200 ≤ w) :
    1 < cauchy a b w ∧ cauchy a b w < 3.5 := by
  have hwpos : (0 : ℝ) < w := by linarith
  have hsq : (200 : ℝ) * 200 ≤ w * w := by nlinarith
  have hsqpos : (0 : ℝ) < w * w := by positivity
  have hdiv : (0.00354 : ℝ) / (w * w) ≤ 0.00354 / (200 * 200) :=
    div_le_div_of_nonneg_left (by norm_num) (by norm_num) hsq
  have hdivpos : 0 < (0.00354 : ℝ) / (w * w) := div_pos (by norm_num) hsqpos
  norm_num at hdiv
  rw [cauchy, a, b]
  constructor
  · linarith
  · linarith

/-- The film index on the grid lies strictly between 1 and 3.5. -/
theorem n_thin_film_bounds (i : ℕ) (hi : i < 1201) :
    1 < n_thin_film.getD i 0 ∧ n_thin_film.getD i 0 < 3.5 := by
  rw [n_thin_film_getD i hi]
  exact cauchy_bounds _ (wavelengths_getD_bounds i hi).1

/-! ### The composite amplitude ratio -/

theorem tmr_point_rAmp (n0 n1 n2 t w : ℝ) :
    tmr_point n0 n1 n2 t w =
      |rAmp ((n0 - n1) / (n0 + n1)) ((n1 - n2) / (n1 + n2))
        (Real.exp (-2.0 * (2.0 * Real.pi / w * n1 * (t * 1e-1)) * 1.0))| ^ 2 := by
  simp only [tmr_point, rAmp]
  norm_num

/-- The normal-incidence Fresnel coefficient of an interface between two
media of positive index has magnitude below 1. -/
theorem fresnel_abs_lt_one (p q : ℝ) (hp : 0 < p) (hq : 0 < q) :
    |(p - q) / (p + q)| < 1 := by
  rw [abs_div, abs_of_pos (by linarith : (0:ℝ) < p + q), div_lt_one (by linarith)]
  rw [abs_lt]
  constructor <;> linarith

theorem rAmp_den_pos (x y e : ℝ) (hx : |x| < 1) (hy : |y| < 1)
    (he0 : 0 < e) (he1 : e ≤ 1) : 0 < 1 + x * y * e := by
  obtain ⟨hx1, hx2⟩ := abs_lt.mp hx
  obtain ⟨hy1, hy2⟩ := abs_lt.mp hy
  have hxy : -1 < x * y := by
    nlinarith [mul_pos (by linarith : (0:ℝ) < 1 + x) (by linarith : (0:ℝ) < 1 + y),
      mul_pos (by linarith : (0:ℝ) < 1 - x) (by linarith : (0:ℝ) < 1 - y)]
  rcases le_or_lt 0 (x * y) with h | h
  · nlinarith
  · nlinarith [mul_le_mul_of_nonpos_left he1 h.le]

theorem abs_rAmp_le_one (x y e : ℝ) (hx : |x| < 1) (hy : |y| < 1)
    (he0 : 0 < e) (he1 : e ≤ 1) : |rAmp x y e| ≤ 1 := by
  obtain ⟨hx1, hx2⟩ := abs_lt.mp hx
  obtain ⟨hy1, hy2⟩ := abs_lt.mp hy
  have hden := rAmp_den_pos x y e hx hy he0 he1
  rw [rAmp, abs_div, abs_of_pos hden, div_le_one hden, abs_le]
  have hye1 : y * e < 1 := by nlinarith
  have hye2 : -1 < y * e := by nlinarith
  have e1 : 0 ≤ (1 - x) * (1 - y * e) := by nlinarith
  have e2 : 0 ≤ (1 + x) * (1 + y * e) := by nlinarith
  constructor <;> nlinarith

/-- With both interface coefficients in `(-1, 0)` (the regime
`n_ambient < n_film < n_substrate`), the squared composite amplitude is
monotone in the attenuation factor on `(0, 1]`. -/
theorem rAmp_sq_mono (x y e1 e2 : ℝ) (hx1 : -1 < x) (hx2 : x < 0)
    (hy1 : -1 < y) (hy2 : y < 0) (he2 : 0 < e2) (he : e2 ≤ e1) (he1 : e1 ≤ 1) :
    (rAmp x y e2) ^ 2 ≤ (rAmp x y e1) ^ 2 := by
  have he2' : e2 ≤ 1 := le_trans he he1
  have he1pos : 0 < e1 := lt_of_lt_of_le he2 he
  have hxy : 0 < x * y := mul_pos_of_neg_of_neg hx2 hy2
  have hd1 : 0 < 1 + x * y * e1 := by nlinarith
  have hd2 : 0 < 1 + x * y * e2 := by nlinarith
  have hr2neg : rAmp x y e2 ≤ 0 := by
    rw [rAmp]
    exact div_nonpos_iff.mpr (Or.inr ⟨by nlinarith, le_of_lt hd2⟩)
  have hle : rAmp x y e1 ≤ rAmp x y e2 := by
    rw [rAmp, rAmp, div_le_div_iff₀ hd1 hd2]
    have key : 0 ≤ (e1 - e2) * (-y) * (1 - x ^ 2) := by
      apply mul_nonneg (mul_nonneg (by linarith) (by linarith))
      nlinarith
    nlinarith
  calc (rAmp x y e2) ^ 2 ≤ (-(rAmp x y e1)) ^ 2 :=
        sq_le_sq' (by linarith) (by linarith)
    _ = (rAmp x y e1) ^ 2 := neg_sq _

/-- At attenuation 1 (zero thickness) the composite amplitude collapses to
the ambient/substrate Fresnel coefficient, independent of the film index. -/
theorem rAmp_collapse (n0 n1 n2 : ℝ) (h0 : 0 < n0) (h1 : 0 < n1) (h2 : 0 < n2) :
    rAmp ((n0 - n1) / (n0 + n1)) ((n1 - n2) / (n1 + n2)) 1 =
      (n0 - n2) / (n0 + n2) := by
  have h01 : n0 + n1 ≠ 0 := by positivity
  have h12 : n1 + n2 ≠ 0 := by positivity
  have h02 : n0 + n2 ≠ 0 := by positivity
  have hnum : (n0 - n1) / (n0 + n1) + (n1 - n2) / (n1 + n2) =
      2 * n1 * (n0 - n2) / ((n0 + n1) * (n1 + n2)) := by
    field_simp
    ring
  have hden : 1 + (n0 - n1) / (n0 + n1) * ((n1 - n2) / (n1 + n2)) =
      2 * n1 * (n0 + n2) / ((n0 + n1) * (n1 + n2)) := by
    field_simp
    ring
  have hd : 1 + (n0 - n1) / (n0 + n1) * ((n1 - n2) / (n1 + n2)) ≠ 0 := by
    rw [hden]; positivity
  rw [rAmp, mul_one, mul_one, div_eq_div_iff hd h02]
  field_simp
  ring

/-! ### Pointwise consequences -/

theorem tmr_point_at_zero (n0 n1 n2 w : ℝ)
    (h0 : 0 < n0) (h1 : 0 < n1) (h2 : 0 < n2) :
    tmr_point n0 n1 n2 0 w = ((n0 - n2) / (n0 + n2)) ^ 2 := by
  rw [tmr_point_rAmp]
  have harg : (-2.0 * (2.0 * Real.pi / w * n1 * ((0 : ℝ) * 1e-1)) * 1.0) = 0 := by
    ring
  rw [harg, Real.exp_zero, rAmp_collapse n0 n1 n2 h0 h1 h2, sq_abs]

theorem tmr_exp_arg_nonpos (n1 t w : ℝ) (h1 : 0 < n1) (hw : 0 < w) (ht : 0 ≤ t) :
    -2.0 * (2.0 * Real.pi / w * n1 * (t * 1e-1)) * 1.0 ≤ 0 := by
  have hX : 0 ≤ 2.0 * Real.pi / w * n1 * (t * 1e-1) := by positivity
  nlinarith

theorem tmr_point_bounds (n0 n1 n2 t w : ℝ)
    (h0 : 0 < n0) (h1 : 0 < n1) (h2 : 0 < n2) (hw : 0 < w) (ht : 0 ≤ t) :
    0 ≤ tmr_point n0 n1 n2 t w ∧ tmr_point n0 n1 n2 t w ≤ 1 := by
  rw [tmr_point_rAmp]
  refine ⟨by positivity, ?_⟩
  apply pow_le_one₀ (abs_nonneg _)
  apply abs_rAmp_le_one
  · exact fresnel_abs_lt_one n0 n1 h0 h1
  · exact fresnel_abs_lt_one n1 n2 h1 h2
  · exact Real.exp_pos _
  · exact Real.exp_le_one_iff.mpr (tmr_exp_arg_nonpos n1 t w h1 hw ht)

/-- Row `i` of the sweep is the solver output for thickness `i`. -/
theorem reflectivity_spectra_row (i : ℕ) (hi : i < 6001) :
    reflectivity_spectra.getD i [] =
      transfer_matrix_reflectivity n_air n_thin_film n_si
        (thicknesses.getD i 0) wavelengths := by
  have hlen : i < thicknesses.length := by rw [thicknesses_length]; exact hi
  rw [List.getD_eq_getElem _ _ (by simpa [reflectivity_spectra, List.length_map] using hlen),
    List.getD_eq_getElem _ _ hlen]
  simp [reflectivity_spectra]

theorem n_thin_film_len_eq : n_thin_film.length = wavelengths.length := by
  rw [n_thin_film_length, wavelengths_length]

/-- Row 0 of the sweep (thickness 0 Å) is the constant ambient/substrate
Fresnel reflectivity, independent of the film index. Shared between the
statements about the zero-thickness row. -/
theorem row_zero_value (i : ℕ) (hi : i < 1201) :
    (reflectivity_spectra.getD 0 []).getD i 0 =
      ((n_air - n_si) / (n_air + n_si)) ^ 2 := by
  rw [reflectivity_spectra_row 0 (by norm_num), thicknesses_getD 0 (by norm_num),
    Nat.cast_zero,
    transfer_matrix_reflectivity_getElem _ _ _ _ _ n_thin_film_len_eq i
      (by rw [wavelengths_length]; exact hi)]
  apply tmr_point_at_zero
  · rw [n_air]; norm_num
  · have := (n_thin_film_bounds i hi).1
    linarith
  · rw [n_si]; norm_num

/-! ### Claims -/

/-- C1: for every positive wavelength grid, film-index profile of the same
length, positive ambient and substrate indices and thickness `t` in
Ångström, the solver output at wavelength index `i` is `|r|²` with
`r = (r01 + r12·exp(−2δ)) / (1 + r01·r12·exp(−2δ))`,
`δ = (2π/λ)·n_film·(0.1·t)`, `r01 = (n0−n_film)/(n0+n_film)`,
`r12 = (n_film−n2)/(n_film+n2)`. -/
theorem C1_solver_formula (n0 n2 t : ℝ) (ws nf : List ℝ)
    (hlen : nf.length = ws.length) (hws : ∀ w ∈ ws, 0 < w)
    (h0 : 0 < n0) (h2 : 0 < n2) (hnf : ∀ n ∈ nf, 0 < n)
    (i : ℕ) (hi : i < ws.length) :
    (transfer_matrix_reflectivity n0 nf n2 t ws).getD i 0 =
      |((n0 - nf.getD i 0) / (n0 + nf.getD i 0) +
          (nf.getD i 0 - n2) / (nf.getD i 0 + n2) *
            Real.exp (-(2 * (2 * Real.pi / ws.getD i 0 * nf.getD i 0 * (0.1 * t))))) /
        (1 + (n0 - nf.getD i 0) / (n0 + nf.getD i 0) *
            ((nf.getD i 0 - n2) / (nf.getD i 0 + n2)) *
            Real.exp (-(2 * (2 * Real.pi / ws.getD i 0 * nf.getD i 0 * (0.1 * t)))))| ^ 2 := by
  rw [transfer_matrix_reflectivity_getElem n0 nf n2 t ws hlen i hi,
    tmr_point_rAmp, rAmp]
  have harg : -2.0 * (2.0 * Real.pi / ws.getD i 0 * nf.getD i 0 * (t * 1e-1)) * 1.0
      = -(2 * (2 * Real.pi / ws.getD i 0 * nf.getD i 0 * (0.1 * t))) := by ring
  rw [harg]

theorem C1_solver_formula_witness :
    (transfer_matrix_reflectivity 1 [2] 3.5 7 [500]).getD 0 0 =
      |((1 - 2) / (1 + 2) + (2 - 3.5) / (2 + 3.5) *
          Real.exp (-(2 * (2 * Real.pi / 500 * 2 * (0.1 * 7))))) /
        (1 + (1 - 2) / (1 + 2) * ((2 - 3.5) / (2 + 3.5)) *
          Real.exp (-(2 * (2 * Real.pi / 500 * 2 * (0.1 * 7)))))| ^ 2 := by
  have h := C1_solver_formula 1 3.5 7 [500] [2] rfl
    (by intro w hw; rw [List.mem_singleton] at hw; rw [hw]; norm_num)
    (by norm_num) (by norm_num)
    (by intro n hn; rw [List.mem_singleton] at hn; rw [hn]; norm_num)
    0 (by norm_num)
  simpa using h

/-- C7: the dispersion output has the grid's length and element `i` equals
`a + b / λ_i²`. -/
theorem C7_dispersion (ws : List ℝ) (i : ℕ) (hi : i < ws.length) :
    (ws.map (cauchy a b)).length = ws.length ∧
    (ws.map (cauchy a b)).getD i 0 = a + b / (ws.getD i 0) ^ 2 := by
  refine ⟨List.length_map _ _, ?_⟩
  rw [List.getD_eq_getElem _ _ (by simpa using hi), List.getD_eq_getElem _ _ hi,
    List.getElem_map, cauchy]
  ring

theorem C7_dispersion_witness :
    (([(2 : ℝ)]).map (cauchy a b)).getD 0 0 = a + b / (2 : ℝ) ^ 2 := by
  have h := (C7_dispersion [2] 0 (by norm_num)).2
  simpa using h

/-- C10: at thickness 0 the solver returns the constant
`((n0 − n2)/(n0 + n2))²` at every wavelength, independent of the film
index. -/
theorem C10_zero_thickness (n0 n2 : ℝ) (nf ws : List ℝ)
    (hlen : nf.length = ws.length) (h0 : 0 < n0) (h2 : 0 < n2)
    (hnf : ∀ n ∈ nf, 0 < n) (i : ℕ) (hi : i < ws.length) :
    (transfer_matrix_reflectivity n0 nf n2 0 ws).getD i 0 =
      ((n0 - n2) / (n0 + n2)) ^ 2 := by
  rw [transfer_matrix_reflectivity_getElem n0 nf n2 0 ws hlen i hi]
  refine tmr_point_at_zero _ _ _ _ h0 ?_ h2
  rw [List.getD_eq_getElem _ _ (by omega)]
  exact hnf _ (List.getElem_mem _)

theorem C10_zero_thickness_witness :
    (transfer_matrix_reflectivity 1 [2] 3.5 0 [500]).getD 0 0 =
      (((1 : ℝ) - 3.5) / (1 + 3.5)) ^ 2 :=
  C10_zero_thickness 1 3.5 [2] [500] rfl (by norm_num) (by norm_num)
    (by intro n hn; rw [List.mem_singleton] at hn; rw [hn]; norm_num)
    0 (by norm_num)

/-- C4: the sweep matrix has 6001 rows of 1201 entries each, and row `i`
is the solver output for thickness grid element `i`. -/
theorem C4_sweep_shape :
    reflectivity_spectra.length = 6001 ∧
    ∀ i, i < 6001 →
      (reflectivity_spectra.getD i []).length = 1201 ∧
      reflectivity_spectra.getD i [] =
        transfer_matrix_reflectivity n_air n_thin_film n_si
          (thicknesses.getD i 0) wavelengths := by
  constructor
  · rw [reflectivity_spectra, List.length_map, thicknesses_length]
  · intro i hi
    have hrow := reflectivity_spectra_row i hi
    refine ⟨?_, hrow⟩
    rw [hrow, transfer_matrix_reflectivity_length _ _ _ _ _ n_thin_film_len_eq,
      wavelengths_length]

theorem C4_sweep_shape_witness :
    (reflectivity_spectra.getD 0 []).length = 1201 :=
  (C4_sweep_shape.2 0 (by norm_num)).1

/-- C2 as stated is false: row 0 of the sweep does NOT equal the
ambient/film Fresnel reflectivity at wavelength index 0 (it equals the
ambient/substrate one instead). -/
theorem C2_counterexample :
    (reflectivity_spectra.getD 0 []).getD 0 0 ≠
      ((n_air - n_thin_film.getD 0 0) / (n_air + n_thin_film.getD 0 0)) ^ 2 := by
  rw [row_zero_value 0 (by norm_num), n_thin_film_getD 0 (by norm_num),
    wavelengths_getD 0 (by norm_num), cauchy, a, b, n_air, n_si]
  norm_num

/-- C2 amended: in the end-to-end scenario, row 0 of the sweep equals the
single-interface ambient/substrate Fresnel reflectivity
`((n_air − n_si)/(n_air + n_si))²` at every wavelength. -/
theorem C2_row_zero (i : ℕ) (hi : i < 1201) :
    (reflectivity_spectra.getD 0 []).getD i 0 =
      ((n_air - n_si) / (n_air + n_si)) ^ 2 :=
  row_zero_value i hi

theorem C2_row_zero_witness :
    (reflectivity_spectra.getD 0 []).getD 7 0 =
      ((n_air - n_si) / (n_air + n_si)) ^ 2 :=
  C2_row_zero 7 (by norm_num)

/-- C6 as stated is false: a non-positive index value is not rejected; the
solver still returns a result (here with ambient index −2). -/
theorem C6_counterexample :
    transfer_matrix_reflectivity_checked (-2) [1] 3.5 0 [500] ≠ none := by
  rw [transfer_matrix_reflectivity_checked]
  simp

/-- C6 amended: the only failure of the solver is the length mismatch
between the index profile and the wavelength grid (the elementwise
operation computing `delta` fails before any reflectivity value exists);
non-positive index values are not rejected. -/
theorem C6_failure_iff (n0 n2 t : ℝ) (nf ws : List ℝ) :
    transfer_matrix_reflectivity_checked n0 nf n2 t ws = none ↔
      nf.length ≠ ws.length := by
  rw [transfer_matrix_reflectivity_checked]
  split_ifs with h
  · simp [h]
  · simp [h]

theorem getD_map (f : ℝ → ℝ) (l : List ℝ) (i : ℕ) (hi : i < l.length) :
    (l.map f).getD i 0 = f (l.getD i 0) := by
  rw [List.getD_eq_getElem _ _ (by simpa using hi), List.getD_eq_getElem _ _ hi,
    List.getElem_map]

/-- C3: with the hardcoded materials (ambient 1.0, substrate 3.5, Cauchy
film index), wavelengths in [200, 800] nm and thicknesses in [0, 6000] Å,
every reflectivity value lies in [0, 1]. -/
theorem C3_unit_interval (ws : List ℝ)
    (hws : ∀ w ∈ ws, 200 ≤ w ∧ w ≤ 800) (t : ℝ) (ht0 : 0 ≤ t) (ht1 : t ≤ 6000)
    (i : ℕ) (hi : i < ws.length) :
    0 ≤ (transfer_matrix_reflectivity n_air (ws.map (cauchy a b)) n_si t ws).getD i 0 ∧
      (transfer_matrix_reflectivity n_air (ws.map (cauchy a b)) n_si t ws).getD i 0 ≤ 1 := by
  rw [transfer_matrix_reflectivity_getElem _ _ _ _ _ (List.length_map _ _) i hi,
    getD_map _ _ _ hi]
  have hmem : ws.getD i 0 ∈ ws := by
    rw [List.getD_eq_getElem _ _ hi]
    exact List.getElem_mem _
  obtain ⟨hlo, hhi⟩ := hws _ hmem
  have hcb := cauchy_bounds (ws.getD i 0) hlo
  apply tmr_point_bounds
  · rw [n_air]; norm_num
  · linarith [hcb.1]
  · rw [n_si]; norm_num
  · linarith
  · exact ht0

theorem C3_unit_interval_witness :
    0 ≤ (transfer_matrix_reflectivity n_air
        (([(500 : ℝ)]).map (cauchy a b)) n_si 250 [500]).getD 0 0 ∧
      (transfer_matrix_reflectivity n_air
        (([(500 : ℝ)]).map (cauchy a b)) n_si 250 [500]).getD 0 0 ≤ 1 :=
  C3_unit_interval [500]
    (by intro w hw; rw [List.mem_singleton] at hw; rw [hw]; norm_num)
    250 (by norm_num) (by norm_num) 0 (by norm_num)

/-- As the thickness goes to infinity, the pointwise reflectivity tends to
the ambient/film single-interface value `r01²`. -/
theorem tmr_point_tendsto (n0 n1 n2 w : ℝ) (h1 : 0 < n1) (hw : 0 < w) :
    Filter.Tendsto (fun t => tmr_point n0 n1 n2 t w) Filter.atTop
      (nhds (((n0 - n1) / (n0 + n1)) ^ 2)) := by
  have heq : ∀ t : ℝ, tmr_point n0 n1 n2 t w =
      |rAmp ((n0 - n1) / (n0 + n1)) ((n1 - n2) / (n1 + n2))
        (Real.exp (-2.0 * (2.0 * Real.pi / w * n1 * (t * 1e-1)) * 1.0))| ^ 2 :=
    fun t => tmr_point_rAmp n0 n1 n2 t w
  have hbot : Filter.Tendsto
      (fun t : ℝ => -2.0 * (2.0 * Real.pi / w * n1 * (t * 1e-1)) * 1.0)
      Filter.atTop Filter.atBot := by
    have h1' : Filter.Tendsto
        (fun t : ℝ => (2.0 * Real.pi / w * n1 * 1e-1 * 2.0) * t)
        Filter.atTop Filter.atTop :=
      Filter.Tendsto.const_mul_atTop (by positivity) Filter.tendsto_id
    have h2' := Filter.tendsto_neg_atTop_atBot.comp h1'
    apply h2'.congr
    intro t
    simp only [Function.comp]
    ring
  have hexp : Filter.Tendsto
      (fun t : ℝ => Real.exp (-2.0 * (2.0 * Real.pi / w * n1 * (t * 1e-1)) * 1.0))
      Filter.atTop (nhds 0) := Real.tendsto_exp_atBot.comp hbot
  have hcont : ContinuousAt
      (fun e : ℝ => |rAmp ((n0 - n1) / (n0 + n1)) ((n1 - n2) / (n1 + n2)) e| ^ 2) 0 := by
    simp only [rAmp]
    apply ContinuousAt.pow
    apply ContinuousAt.abs
    apply ContinuousAt.div
    · fun_prop
    · fun_prop
    · norm_num
  have hmain := (hcont.tendsto.comp hexp)
  have hval : |rAmp ((n0 - n1) / (n0 + n1)) ((n1 - n2) / (n1 + n2)) 0| ^ 2 =
      ((n0 - n1) / (n0 + n1)) ^ 2 := by
    rw [rAmp]
    norm_num [sq_abs]
  simp only [Function.comp, hval] at hmain
  exact hmain.congr fun t => (heq t).symm

/-- C5: at every wavelength of the grid, with the hardcoded materials, the
reflectivity tends to the ambient/film Fresnel value `r01(λ)²` as the
thickness tends to infinity. -/
theorem C5_thick_limit (i : ℕ) (hi : i < 1201) :
    Filter.Tendsto
      (fun t => (transfer_matrix_reflectivity n_air n_thin_film n_si t
        wavelengths).getD i 0)
      Filter.atTop
      (nhds (((n_air - n_thin_film.getD i 0) /
        (n_air + n_thin_film.getD i 0)) ^ 2)) := by
  have hiw : i < wavelengths.length := by rw [wavelengths_length]; exact hi
  have hn1 := (n_thin_film_bounds i hi).1
  have hwlo := (wavelengths_getD_bounds i hi).1
  have hmain := tmr_point_tendsto n_air (n_thin_film.getD i 0) n_si
    (wavelengths.getD i 0) (by linarith) (by linarith)
  exact hmain.congr fun t =>
    (transfer_matrix_reflectivity_getElem n_air n_thin_film n_si t
      wavelengths n_thin_film_len_eq i hiw).symm

theorem C5_thick_limit_witness :
    Filter.Tendsto
      (fun t => (transfer_matrix_reflectivity n_air n_thin_film n_si t
        wavelengths).getD 0 0)
      Filter.atTop
      (nhds (((n_air - n_thin_film.getD 0 0) /
        (n_air + n_thin_film.getD 0 0)) ^ 2)) :=
  C5_thick_limit 0 (by norm_num)

/-- C8: at every wavelength of the grid, with the hardcoded materials, the
reflectivity is antitone in the thickness on `[0, ∞)`: no interference
fringes are produced. -/
theorem C8_monotone (i : ℕ) (hi : i < 1201) (t1 t2 : ℝ)
    (ht1 : 0 ≤ t1) (h12 : t1 ≤ t2) :
    (transfer_matrix_reflectivity n_air n_thin_film n_si t2 wavelengths).getD i 0 ≤
      (transfer_matrix_reflectivity n_air n_thin_film n_si t1 wavelengths).getD i 0 := by
  have hiw : i < wavelengths.length := by rw [wavelengths_length]; exact hi
  obtain ⟨hn1, hn2⟩ := n_thin_film_bounds i hi
  obtain ⟨hwlo, hwhi⟩ := wavelengths_getD_bounds i hi
  have hw0 : 0 < wavelengths.getD i 0 := by linarith
  have hn0 : 0 < n_thin_film.getD i 0 := by linarith
  rw [transfer_matrix_reflectivity_getElem _ _ _ _ _ n_thin_film_len_eq i hiw,
    transfer_matrix_reflectivity_getElem _ _ _ _ _ n_thin_film_len_eq i hiw,
    tmr_point_rAmp, tmr_point_rAmp, sq_abs, sq_abs]
  apply rAmp_sq_mono
  · rw [n_air, lt_div_iff₀ (by linarith)]
    linarith
  · rw [n_air]
    apply div_neg_of_neg_of_pos <;> linarith
  · rw [n_si, lt_div_iff₀ (by linarith)]
    linarith
  · rw [n_si]
    apply div_neg_of_neg_of_pos <;> linarith
  · exact Real.exp_pos _
  · apply Real.exp_le_exp.mpr
    have hc : 0 ≤ 2.0 * Real.pi / wavelengths.getD i 0 * n_thin_film.getD i 0 := by
      positivity
    nlinarith [mul_le_mul_of_nonneg_left h12 hc]
  · exact Real.exp_le_one_iff.mpr
      (tmr_exp_arg_nonpos (n_thin_film.getD i 0) t1 (wavelengths.getD i 0) hn0 hw0 ht1)

theorem C8_monotone_witness :
    (transfer_matrix_reflectivity n_air n_thin_film n_si 1 wavelengths).getD 0 0 ≤
      (transfer_matrix_reflectivity n_air n_thin_film n_si 0 wavelengths).getD 0 0 :=
  C8_monotone 0 (by norm_num) 0 1 le_rfl (by norm_num)

theorem stepBy_nil (n : ℕ) : stepBy n ([] : List α) = [] := by
  rw [stepBy.eq_def]

theorem stepBy_cons (n : ℕ) (x : α) (xs : List α) :
    stepBy n (x :: xs) = x :: stepBy n (xs.drop (n - 1)) := by
  rw [stepBy.eq_def]

/-- Rust's `step_by n` keeps exactly the elements at indices `0, n, 2n, ...`. -/
theorem stepBy_getElem? (n : ℕ) (hn : 1 ≤ n) :
    (l : List α) → (k : ℕ) → (stepBy n l)[k]? = l[k * n]?
  | [], k => by rw [stepBy_nil]; simp
  | x :: xs, 0 => by rw [stepBy_cons]; simp
  | x :: xs, k + 1 => by
    rw [stepBy_cons, List.getElem?_cons_succ,
      stepBy_getElem? n hn (xs.drop (n - 1)) k, List.getElem?_drop]
    have hn' : 1 ≤ n := hn
    have hdist : (k + 1) * n = k * n + n := by ring
    have h : (k + 1) * n = n - 1 + k * n + 1 := by omega
    rw [h, List.getElem?_cons_succ]
termination_by l => l.length
decreasing_by
  simp only [List.length_drop, List.length_cons]
  omega

theorem thicknesses_getElem?_1000 :
    thicknesses[1000]? = some (1000 : ℝ) := by
  rw [List.getElem?_eq_getElem (by rw [thicknesses_length]; norm_num)]
  have h := thicknesses_getD 1000 (by norm_num)
  rw [List.getD_eq_getElem _ _ (by rw [thicknesses_length]; norm_num)] at h
  rw [h]
  norm_num

/-- C9 fails on the code: the second drawn series is labeled with
thickness grid element 1000 (i.e. 1000 Å) but is built from matrix row 1
(thickness 1 Å), because the plotting loop enumerates AFTER `step_by`,
so the row index is the enumeration index `k`, not `1000·k`. -/
theorem C9_mislabeled_series :
    plotted_series.getD 1 (0, []) = ((1000 : ℝ), reflectivity_spectra.getD 1 []) := by
  rw [plotted_series, List.getD_eq_getElem?_getD, List.getElem?_map,
    List.getElem?_enum, stepBy_getElem? 1000 (by norm_num), one_mul,
    thicknesses_getElem?_1000]
  rfl

end Film
